import Mathlib

/-!
Verification development for the quickwit janitor `DeleteTaskService`
(`quickwit-janitor/src/actors/delete_task_service.rs`).

The service owns a map `pipeline_handles_by_index_uid` from index uid to the
handle of a running `DeleteTaskPipeline`.  On each `UpdatePipelines` message it
runs one reconciliation pass (`update_pipeline_handles`): it lists the indexes
from the metastore, kills the pipelines of indexes that disappeared, spawns
pipelines for new indexes (`spawn_pipeline`), and then reschedules itself after
a fixed interval.

The embedding below is a direct translation of that file:
* `IndexUid`, `IndexConfig`, `IndexMetadata` model the metastore types used by
  the service (only the fields the service reads).
* `Env` packages the external collaborators: the metastore listing call
  (together with its deserialization, collapsed into one `Except`), the storage
  resolver, and the per-index metadata fetch (again call + deserialization).
* The pipeline-handle map is an association list with unique keys, mirroring a
  Rust `HashMap`; handles are modelled as generation numbers allocated from a
  counter, since the service only stores and kills them.
* Side effects (map removal, kill request, kill acknowledgment, spawn call,
  insertion of a freshly spawned handle, warning and error logs, timer
  rescheduling) are recorded in an event trace so that ordering claims can be
  stated.
* The two `.expect(...)` calls in `update_pipeline_handles` are modelled by
  `Option`: a pass evaluates to `none` exactly when one of them would panic.
-/

/-- Unique identifier of an index: the pair of the index id and an
incarnation id (`quickwit_proto::types::IndexUid`). -/
structure IndexUid where
  index_id : String
  incarnation_id : String
deriving DecidableEq, Repr

/-- The part of `quickwit_config::IndexConfig` the service reads: the index id
(used for the per-index metadata fetch) and the index uri (used for storage
resolution). -/
structure IndexConfig where
  index_id : String
  index_uri : String
deriving DecidableEq, Repr

/-- The part of `IndexMetadata` the service reads: its uid and its config. -/
structure IndexMetadata where
  index_uid : IndexUid
  index_config : IndexConfig
deriving DecidableEq, Repr

/-- Translation of `IndexMetadata::into_index_config`. -/
def IndexMetadata.into_index_config (im : IndexMetadata) : IndexConfig :=
  im.index_config

/-- External collaborators of the service, as pure oracles.
`listing` is `metastore.list_indexes_metadata(..).await` followed by
`deserialize_indexes_metadata()`, collapsed into one fallible result;
`resolve` is `storage_resolver.resolve(&index_uri)` (only success matters to
the service, so the handle is `Unit`); `fetchMeta` is
`metastore.index_metadata(for_index_id(index_id))` followed by
`deserialize_index_metadata()`. -/
structure Env where
  listing : Except String (List IndexMetadata)
  resolve : String → Except String Unit
  fetchMeta : String → Except String IndexMetadata

/-- Mutable state of the service: the pipeline-handle map (an association list
with unique keys, mirroring `HashMap<IndexUid, ActorHandle<DeleteTaskPipeline>>`)
and a counter allocating fresh handle generations for spawned pipelines. -/
structure DeleteTaskService where
  pipeline_handles_by_index_uid : List (IndexUid × Nat)
  next_handle : Nat
deriving DecidableEq, Repr

/-- Translation of `DeleteTaskServiceState`, the observable state of the actor. -/
structure DeleteTaskServiceState where
  num_running_pipelines : Nat
deriving DecidableEq, Repr

/-- Translation of `Actor::observable_state`: the number of entries of the handle map. -/
def observable_state (s : DeleteTaskService) : DeleteTaskServiceState :=
  ⟨s.pipeline_handles_by_index_uid.length⟩

/-! ### Association-list operations mirroring the `HashMap` calls -/

/-- Lookup of a `HashMap` key on an association list. -/
def alookup {α : Type} : List (IndexUid × α) → IndexUid → Option α
  | [], _ => none
  | (k, v) :: rest, u => if k = u then some v else alookup rest u

/-- Removal of a `HashMap` key on an association list (removes every pair with the
key; on a map with unique keys this is the removal of the single entry). -/
def aremove {α : Type} : List (IndexUid × α) → IndexUid → List (IndexUid × α)
  | [], _ => []
  | (k, v) :: rest, u => if k = u then aremove rest u else (k, v) :: aremove rest u

/-- Translation of `HashMap::remove`: returns the removed value when the key is present,
together with the map without that entry, and `none` otherwise. -/
def aremoveGet {α : Type} (m : List (IndexUid × α)) (u : IndexUid) :
    Option (α × List (IndexUid × α)) :=
  match alookup m u with
  | none => none
  | some v => some (v, aremove m u)

/-- Translation of `HashMap::insert`: overwrites the value when the key is present, appends
the pair otherwise. -/
def ainsert {α : Type} : List (IndexUid × α) → IndexUid → α → List (IndexUid × α)
  | [], u, v => [(u, v)]
  | (k, w) :: rest, u, v =>
    if k = u then (u, v) :: rest else (k, w) :: ainsert rest u v

/-- Keys of an association list. -/
def akeys {α : Type} (m : List (IndexUid × α)) : List IndexUid :=
  m.map Prod.fst

/-- The `HashMap` built by
`listing.into_iter().map(|im| (im.index_uid, im.into_index_config())).collect()`.
`collect` into a `HashMap` lets the later of two entries with the same key win,
which this recursion reproduces: an entry is kept only when no later entry has
its uid. -/
def buildConfigMap : List IndexMetadata → List (IndexUid × IndexConfig)
  | [] => []
  | im :: rest =>
    let m := buildConfigMap rest
    if im.index_uid ∈ akeys m then m
    else (im.index_uid, im.into_index_config) :: m

/-! ### Event trace -/

/-- Observable side effects of one message handling, in program order. -/
inductive Event where
  | removeEntry (uid : IndexUid)
  | killRequest (uid : IndexUid)
  | killAck (uid : IndexUid)
  | spawnCall (uid : IndexUid)
  | spawnInsert (uid : IndexUid) (handle : Nat)
  | spawnFailWarn (index_id : String)
  | errorLog
  | scheduleSelf
deriving DecidableEq, Repr

/-- Events produced by the stale loop (lines 133-144 of the source). -/
def Event.isStaleEvent : Event → Bool
  | .removeEntry _ => true
  | .killRequest _ => true
  | .killAck _ => true
  | _ => false

/-- Events produced by the missing loop (lines 147-157 of the source). -/
def Event.isSpawnEvent : Event → Bool
  | .spawnCall _ => true
  | .spawnInsert _ _ => true
  | .spawnFailWarn _ => true
  | _ => false

/-- The uid of a kill request event. -/
def Event.killReqUid : Event → Option IndexUid
  | .killRequest u => some u
  | _ => none

/-- The uid of a spawn call event. -/
def Event.spawnCallUid : Event → Option IndexUid
  | .spawnCall u => some u
  | _ => none

/-! ### The reconciliation pass -/

/-- Translation of `DeleteTaskService::spawn_pipeline`: resolve the storage uri, then
fetch the index metadata by the config's `index_id`, then spawn the pipeline
actor and insert its handle into the map under the uid of the freshly fetched
metadata.  Returns the new state, the emitted events, and whether the call
returned `Ok`.  On failure the state is untouched: the actor spawn and the
insertion only happen after both fallible steps succeeded. -/
def spawn_pipeline (env : Env) (s : DeleteTaskService) (index_config : IndexConfig) :
    DeleteTaskService × List Event × Bool :=
  match env.resolve index_config.index_uri with
  | .error _ => (s, [], false)
  | .ok _ =>
    match env.fetchMeta index_config.index_id with
    | .error _ => (s, [], false)
    | .ok index_metadata =>
      (⟨ainsert s.pipeline_handles_by_index_uid index_metadata.index_uid s.next_handle,
        s.next_handle + 1⟩,
       [Event.spawnInsert index_metadata.index_uid s.next_handle], true)

/-- The loop over `pipeline_index_uids.difference(&index_uids)`: for each stale
uid, remove its handle from the map (`remove(..).expect("Handle must be
present.")`, modelled by `none` on a missing key) and kill the pipeline,
awaiting the stop.  Returns the map after the removals and the event trace. -/
def runStaleLoop : List (IndexUid × Nat) → List IndexUid →
    Option (List (IndexUid × Nat) × List Event)
  | m, [] => some (m, [])
  | m, u :: rest =>
    match aremoveGet m u with
    | none => none
    | some (_, m₁) =>
      match runStaleLoop m₁ rest with
      | none => none
      | some (m₂, evs) =>
        some (m₂, Event.removeEntry u :: Event.killRequest u :: Event.killAck u :: evs)

/-- The loop over `index_uids.difference(&pipeline_index_uids)`: for each
missing uid, take its config out of the config map
(`remove(..).expect("Index metadata must be present.")`, modelled by `none` on
a missing key) and call `spawn_pipeline`; a failed spawn only logs a warning
with the listing uid's `index_id`. -/
def runMissingLoop (env : Env) :
    DeleteTaskService → List (IndexUid × IndexConfig) → List IndexUid →
    Option (DeleteTaskService × List Event)
  | s, _, [] => some (s, [])
  | s, cfgMap, u :: rest =>
    match aremoveGet cfgMap u with
    | none => none
    | some (index_config, cfgMap₁) =>
      let r := spawn_pipeline env s index_config
      let evs₀ := Event.spawnCall u ::
        (r.2.1 ++ if r.2.2 then [] else [Event.spawnFailWarn u.index_id])
      match runMissingLoop env r.1 cfgMap₁ rest with
      | none => none
      | some (s₂, evs) => some (s₂, evs₀ ++ evs)

/-- Translation of `DeleteTaskService::update_pipeline_handles`: one reconciliation pass.
Returns `none` when one of the two `.expect` calls would panic; otherwise the
state after the pass, the event trace, and whether the pass returned `Ok`
(`false` exactly when the listing call or its deserialization failed, in which
case the state is untouched and no action was taken). -/
def update_pipeline_handles (env : Env) (s : DeleteTaskService) :
    Option (DeleteTaskService × List Event × Bool) :=
  match env.listing with
  | .error _ => some (s, [], false)
  | .ok listing =>
    let index_config_by_index_id := buildConfigMap listing
    let index_uids := akeys index_config_by_index_id
    let pipeline_index_uids := akeys s.pipeline_handles_by_index_uid
    let stale := pipeline_index_uids.filter (fun u => decide (u ∉ index_uids))
    let missing := index_uids.filter (fun u => decide (u ∉ pipeline_index_uids))
    match runStaleLoop s.pipeline_handles_by_index_uid stale with
    | none => none
    | some (m₁, staleEvs) =>
      match runMissingLoop env ⟨m₁, s.next_handle⟩ index_config_by_index_id missing with
      | none => none
      | some (s₂, missingEvs) => some (s₂, staleEvs ++ missingEvs, true)

/-- Translation of `Handler<UpdatePipelines>::handle`: run the pass, log an error when it
failed, then schedule exactly one `UpdatePipelines` self-message after the
fixed interval.  The handler itself always returns `Ok(())` (the service never
exits because of a pass); `none` again models a panic inside the pass. -/
def handle_update_pipelines (env : Env) (s : DeleteTaskService) :
    Option (DeleteTaskService × List Event) :=
  match update_pipeline_handles env s with
  | none => none
  | some (s₁, evs, ok) =>
    some (s₁, evs ++ (if ok then [] else [Event.errorLog]) ++ [Event.scheduleSelf])

/-! ### Small concrete instances used by witnesses -/

/-- A concrete uid. -/
def uidA : IndexUid := ⟨"index-a", "0001"⟩

/-- A second concrete uid. -/
def uidB : IndexUid := ⟨"index-b", "0002"⟩

/-- A concrete config for `uidA`. -/
def cfgA : IndexConfig := ⟨"index-a", "ram:///a"⟩

/-- A concrete config for `uidB`. -/
def cfgB : IndexConfig := ⟨"index-b", "ram:///b"⟩

/-- Concrete metadata for `uidA`. -/
def imA : IndexMetadata := ⟨uidA, cfgA⟩

/-- Concrete metadata for `uidB`. -/
def imB : IndexMetadata := ⟨uidB, cfgB⟩

/-- An environment whose listing returns exactly `imA` and whose per-index
calls all succeed consistently. -/
def envA : Env :=
  ⟨Except.ok [imA], fun _ => Except.ok (), fun _ => Except.ok imA⟩

/-- An environment that lists `imA` but whose storage resolution always
fails, so every spawn attempt fails. -/
def envStorageDown : Env :=
  ⟨Except.ok [imA], fun _ => Except.error "storage unreachable", fun _ => Except.ok imA⟩

/-- An environment whose listing fails. -/
def envDown : Env :=
  ⟨Except.error "metastore unavailable",
   fun _ => Except.ok (),
   fun _ => Except.error "metastore unavailable"⟩

/-- The freshly created service state: empty map. -/
def s0 : DeleteTaskService := ⟨[], 0⟩

example : update_pipeline_handles envA s0 =
    some (⟨[(uidA, 0)], 1⟩, [Event.spawnCall uidA, Event.spawnInsert uidA 0], true) := by
  decide

example : handle_update_pipelines envDown s0 =
    some (s0, [Event.errorLog, Event.scheduleSelf]) := by
  decide

/-! ### Lemmas about the association-list operations -/

theorem alookup_eq_none_iff {α : Type} (m : List (IndexUid × α)) (u : IndexUid) :
    alookup m u = none ↔ u ∉ akeys m := by
  induction m with
  | nil => simp [alookup, akeys]
  | cons p rest ih =>
    obtain ⟨k, v⟩ := p
    by_cases hk : k = u
    · subst hk
      simp [alookup, akeys]
    · simp [alookup, akeys, hk, ih, Ne.symm hk]

theorem alookup_isSome_of_mem {α : Type} {m : List (IndexUid × α)} {u : IndexUid}
    (h : u ∈ akeys m) : ∃ v, alookup m u = some v := by
  cases hv : alookup m u with
  | none => exact absurd ((alookup_eq_none_iff m u).mp hv) (not_not_intro h)
  | some v => exact ⟨v, rfl⟩

theorem mem_akeys_of_alookup {α : Type} {m : List (IndexUid × α)} {u : IndexUid} {v : α}
    (h : alookup m u = some v) : u ∈ akeys m := by
  by_contra hne
  rw [← alookup_eq_none_iff] at hne
  rw [h] at hne
  cases hne

theorem aremove_eq_filter {α : Type} (m : List (IndexUid × α)) (u : IndexUid) :
    aremove m u = m.filter (fun p => decide (p.1 ≠ u)) := by
  induction m with
  | nil => simp [aremove]
  | cons p rest ih =>
    obtain ⟨k, v⟩ := p
    by_cases hk : k = u
    · subst hk
      simp [aremove, ih]
    · simp [aremove, hk, ih]

theorem alookup_filter {α : Type} (p : IndexUid → Bool) (m : List (IndexUid × α))
    (v : IndexUid) :
    alookup (m.filter (fun q => p q.1)) v = if p v then alookup m v else none := by
  induction m with
  | nil => simp [alookup]
  | cons q rest ih =>
    obtain ⟨k, w⟩ := q
    by_cases hk : k = v
    · subst hk
      by_cases hp : p k
      · simp [alookup, hp, List.filter_cons]
      · simp [alookup, hp, List.filter_cons, ih]
    · by_cases hp : p k
      · simp [alookup, hp, hk, List.filter_cons, ih]
      · simp [alookup, hp, hk, List.filter_cons, ih]

theorem alookup_aremove {α : Type} (m : List (IndexUid × α)) (u v : IndexUid) :
    alookup (aremove m u) v = if v = u then none else alookup m v := by
  rw [aremove_eq_filter]
  rw [alookup_filter (fun k => decide (k ≠ u)) m v]
  by_cases hv : v = u <;> simp [hv]

theorem akeys_filter {α : Type} (p : IndexUid → Bool) (m : List (IndexUid × α)) :
    akeys (m.filter (fun q => p q.1)) = (akeys m).filter p := by
  unfold akeys
  rw [List.filter_map]
  rfl

theorem alookup_ainsert {α : Type} (m : List (IndexUid × α)) (u : IndexUid) (a : α)
    (v : IndexUid) :
    alookup (ainsert m u a) v = if v = u then some a else alookup m v := by
  induction m with
  | nil =>
    by_cases hv : v = u
    · simp [ainsert, alookup, hv]
    · have huv : ¬ u = v := fun h => hv h.symm
      simp [ainsert, alookup, hv, huv]
  | cons q rest ih =>
    obtain ⟨k, w⟩ := q
    by_cases hk : k = u
    · subst hk
      by_cases hv : v = k
      · simp [ainsert, alookup, hv]
      · have hkv : ¬ k = v := fun h => hv h.symm
        simp [ainsert, alookup, hv, hkv]
    · by_cases hkv : k = v
      · have hvu : ¬ v = u := fun h => hk (hkv.trans h)
        simp [ainsert, alookup, hk, hkv, hvu]
      · simp [ainsert, alookup, hk, hkv, ih]

theorem mem_akeys_ainsert {α : Type} (m : List (IndexUid × α)) (u : IndexUid) (a : α)
    (v : IndexUid) : v ∈ akeys (ainsert m u a) ↔ v = u ∨ v ∈ akeys m := by
  induction m with
  | nil => simp [ainsert, akeys]
  | cons q rest ih =>
    obtain ⟨k, w⟩ := q
    by_cases hk : k = u
    · subst hk
      simp [ainsert, akeys]
    · simp only [ainsert, hk, if_false, akeys, List.map_cons, List.mem_cons]
      rw [show (List.map Prod.fst (ainsert rest u a)) = akeys (ainsert rest u a) from rfl]
      rw [ih]
      tauto

theorem length_ainsert_of_not_mem {α : Type} {m : List (IndexUid × α)} {u : IndexUid}
    (a : α) (h : u ∉ akeys m) : (ainsert m u a).length = m.length + 1 := by
  induction m with
  | nil => simp [ainsert]
  | cons q rest ih =>
    obtain ⟨k, w⟩ := q
    simp only [akeys, List.map_cons, List.mem_cons] at h
    push_neg at h
    obtain ⟨h1, h2⟩ := h
    have hku : ¬ k = u := fun hh => h1 hh.symm
    simp [ainsert, hku, ih h2]

theorem nodup_akeys_ainsert {α : Type} {m : List (IndexUid × α)} (u : IndexUid) (a : α)
    (h : (akeys m).Nodup) : (akeys (ainsert m u a)).Nodup := by
  induction m with
  | nil => simp [ainsert, akeys]
  | cons q rest ih =>
    obtain ⟨k, w⟩ := q
    simp only [akeys, List.map_cons, List.nodup_cons] at h
    obtain ⟨hk, hrest⟩ := h
    by_cases hku : k = u
    · subst hku
      have heq : ainsert ((k, w) :: rest) k a = (k, a) :: rest := by
        simp [ainsert]
      rw [heq]
      simp only [akeys, List.map_cons, List.nodup_cons]
      exact ⟨hk, hrest⟩
    · simp only [ainsert, hku, if_false, akeys, List.map_cons, List.nodup_cons]
      constructor
      · intro hmem
        rw [show List.map Prod.fst (ainsert rest u a) = akeys (ainsert rest u a) from rfl,
          mem_akeys_ainsert] at hmem
        rcases hmem with h | h
        · exact hku h
        · exact hk h
      · exact ih hrest

/-! ### Lemmas about the config map built from the listing -/

theorem buildConfigMap_cons (im : IndexMetadata) (rest : List IndexMetadata) :
    buildConfigMap (im :: rest) =
      if im.index_uid ∈ akeys (buildConfigMap rest) then buildConfigMap rest
      else (im.index_uid, im.into_index_config) :: buildConfigMap rest := rfl

theorem mem_akeys_buildConfigMap (l : List IndexMetadata) (v : IndexUid) :
    v ∈ akeys (buildConfigMap l) ↔ v ∈ l.map IndexMetadata.index_uid := by
  induction l with
  | nil => simp [buildConfigMap, akeys]
  | cons im rest ih =>
    rw [buildConfigMap_cons]
    by_cases hmem : im.index_uid ∈ akeys (buildConfigMap rest)
    · rw [if_pos hmem, ih]
      simp only [List.map_cons, List.mem_cons]
      constructor
      · exact fun h => Or.inr h
      · rintro (h | h)
        · subst h
          exact ih.mp hmem
        · exact h
    · rw [if_neg hmem]
      simp only [akeys, List.map_cons, List.mem_cons]
      exact or_congr Iff.rfl ih

theorem nodup_akeys_buildConfigMap (l : List IndexMetadata) :
    (akeys (buildConfigMap l)).Nodup := by
  induction l with
  | nil => simp [buildConfigMap, akeys]
  | cons im rest ih =>
    rw [buildConfigMap_cons]
    by_cases hmem : im.index_uid ∈ akeys (buildConfigMap rest)
    · rw [if_pos hmem]
      exact ih
    · rw [if_neg hmem]
      simp only [akeys, List.map_cons, List.nodup_cons]
      exact ⟨hmem, ih⟩

theorem length_buildConfigMap {l : List IndexMetadata}
    (h : (l.map IndexMetadata.index_uid).Nodup) :
    (buildConfigMap l).length = l.length := by
  induction l with
  | nil => simp [buildConfigMap]
  | cons im rest ih =>
    simp only [List.map_cons, List.nodup_cons] at h
    obtain ⟨hhd, hrest⟩ := h
    have hnot : im.index_uid ∉ akeys (buildConfigMap rest) := by
      rw [mem_akeys_buildConfigMap]
      exact hhd
    simp [buildConfigMap, hnot, ih hrest]

theorem alookup_buildConfigMap_mem {l : List IndexMetadata} {u : IndexUid}
    {cfg : IndexConfig} (h : alookup (buildConfigMap l) u = some cfg) :
    ∃ im ∈ l, im.index_uid = u ∧ im.index_config = cfg := by
  induction l with
  | nil => simp [buildConfigMap, alookup] at h
  | cons im rest ih =>
    rw [buildConfigMap_cons] at h
    by_cases hmem : im.index_uid ∈ akeys (buildConfigMap rest)
    · rw [if_pos hmem] at h
      obtain ⟨im', hmem', heq⟩ := ih h
      exact ⟨im', List.mem_cons_of_mem _ hmem', heq⟩
    · rw [if_neg hmem] at h
      by_cases hu : im.index_uid = u
      · refine ⟨im, List.mem_cons_self _ _, hu, ?_⟩
        simp [alookup, hu, IndexMetadata.into_index_config] at h
        exact h
      · simp only [alookup, hu, if_false] at h
        obtain ⟨im', hmem', heq⟩ := ih h
        exact ⟨im', List.mem_cons_of_mem _ hmem', heq⟩

/-! ### Spawn outcome -/

/-- The uid under which `spawn_pipeline` would insert a handle for the given
config, or `none` when storage resolution or the metadata fetch fails. -/
def spawnResultUid (env : Env) (index_config : IndexConfig) : Option IndexUid :=
  match env.resolve index_config.index_uri with
  | .error _ => none
  | .ok _ =>
    match env.fetchMeta index_config.index_id with
    | .error _ => none
    | .ok index_metadata => some index_metadata.index_uid

theorem spawn_pipeline_of_fail {env : Env} {cfg : IndexConfig}
    (h : spawnResultUid env cfg = none) (s : DeleteTaskService) :
    spawn_pipeline env s cfg = (s, [], false) := by
  unfold spawnResultUid at h
  unfold spawn_pipeline
  cases hr : env.resolve cfg.index_uri with
  | error e => rfl
  | ok r =>
    rw [hr] at h
    cases hf : env.fetchMeta cfg.index_id with
    | error e => rfl
    | ok meta =>
      rw [hf] at h
      cases h

theorem spawn_pipeline_of_ok {env : Env} {cfg : IndexConfig} {uid : IndexUid}
    (h : spawnResultUid env cfg = some uid) (s : DeleteTaskService) :
    spawn_pipeline env s cfg =
      (⟨ainsert s.pipeline_handles_by_index_uid uid s.next_handle, s.next_handle + 1⟩,
       [Event.spawnInsert uid s.next_handle], true) := by
  unfold spawnResultUid at h
  unfold spawn_pipeline
  cases hr : env.resolve cfg.index_uri with
  | error e =>
    rw [hr] at h
    cases h
  | ok r =>
    rw [hr] at h
    cases hf : env.fetchMeta cfg.index_id with
    | error e =>
      rw [hf] at h
      cases h
    | ok meta =>
      rw [hf] at h
      simp only [Option.some.injEq] at h
      subst h
      rfl

/-! ### Derived sets of one reconciliation pass -/

/-- The uids the listing reports (keys of the config map built from it). -/
def desiredUids (l : List IndexMetadata) : List IndexUid :=
  akeys (buildConfigMap l)

/-- The set `pipeline_index_uids.difference(&index_uids)`: uids with a pipeline but no
longer listed. -/
def staleUids (s : DeleteTaskService) (l : List IndexMetadata) : List IndexUid :=
  (akeys s.pipeline_handles_by_index_uid).filter (fun u => decide (u ∉ desiredUids l))

/-- The set `index_uids.difference(&pipeline_index_uids)`: listed uids without a
pipeline. -/
def missingUids (s : DeleteTaskService) (l : List IndexMetadata) : List IndexUid :=
  (desiredUids l).filter (fun u => decide (u ∉ akeys s.pipeline_handles_by_index_uid))

/-- The events one stale uid contributes: map removal, then the kill request,
then the awaited kill acknowledgment. -/
def staleEvents (u : IndexUid) : List Event :=
  [Event.removeEntry u, Event.killRequest u, Event.killAck u]

/-- The per-index metadata fetch agrees with the listing: whenever it succeeds
for the config of a listed index, it returns metadata carrying that index's
uid.  This is the store-consistency assumption of the spec's convergence and
idempotence properties (no index is recreated between the bulk listing and the
narrower per-index read). -/
def ConsistentFetch (env : Env) (l : List IndexMetadata) : Prop :=
  ∀ im ∈ l, ∀ meta, env.fetchMeta im.index_config.index_id = Except.ok meta →
    meta.index_uid = im.index_uid

/-- Every listed index can be spawned: storage resolution and the per-index
fetch both succeed on its config. -/
def AllSpawnsOk (env : Env) (l : List IndexMetadata) : Prop :=
  ∀ im ∈ l, (spawnResultUid env im.index_config).isSome = true

theorem spawnResultUid_fetch {env : Env} {cfg : IndexConfig} {uid : IndexUid}
    (h : spawnResultUid env cfg = some uid) :
    ∃ meta, env.fetchMeta cfg.index_id = Except.ok meta ∧ meta.index_uid = uid := by
  unfold spawnResultUid at h
  cases hr : env.resolve cfg.index_uri with
  | error e =>
    rw [hr] at h
    cases h
  | ok r =>
    rw [hr] at h
    cases hf : env.fetchMeta cfg.index_id with
    | error e =>
      rw [hf] at h
      cases h
    | ok meta =>
      rw [hf] at h
      simp only [Option.some.injEq] at h
      exact ⟨meta, rfl, h⟩

theorem consistent_spawn_uid {env : Env} {l : List IndexMetadata}
    (hcons : ConsistentFetch env l) {u : IndexUid} {cfg : IndexConfig}
    (hcfg : alookup (buildConfigMap l) u = some cfg) :
    ∀ uid, spawnResultUid env cfg = some uid → uid = u := by
  intro uid hres
  obtain ⟨im, himl, himu, himc⟩ := alookup_buildConfigMap_mem hcfg
  obtain ⟨meta, hfetch, hmetauid⟩ := spawnResultUid_fetch hres
  rw [← himc] at hfetch
  have := hcons im himl meta hfetch
  rw [← hmetauid, this, himu]

theorem allok_spawn_uid {env : Env} {l : List IndexMetadata}
    (hcons : ConsistentFetch env l) (hok : AllSpawnsOk env l)
    {u : IndexUid} {cfg : IndexConfig}
    (hcfg : alookup (buildConfigMap l) u = some cfg) :
    spawnResultUid env cfg = some u := by
  obtain ⟨im, himl, himu, himc⟩ := alookup_buildConfigMap_mem hcfg
  have hsome := hok im himl
  rw [himc] at hsome
  cases hres : spawnResultUid env cfg with
  | none =>
    rw [hres] at hsome
    cases hsome
  | some uid =>
    have huid := consistent_spawn_uid hcons hcfg uid hres
    rw [huid]

/-! ### The stale loop -/

theorem runStaleLoop_spec (stale : List IndexUid) :
    ∀ m : List (IndexUid × Nat), stale.Nodup → (∀ u ∈ stale, u ∈ akeys m) →
    runStaleLoop m stale =
      some (m.filter (fun p => decide (p.1 ∉ stale)), stale.flatMap staleEvents) := by
  induction stale with
  | nil =>
    intro m _ _
    simp [runStaleLoop]
  | cons u rest ih =>
    intro m hnd hsub
    simp only [List.nodup_cons] at hnd
    obtain ⟨hu, hndrest⟩ := hnd
    obtain ⟨v, hv⟩ := alookup_isSome_of_mem (hsub u (List.mem_cons_self _ _))
    have hrest : ∀ w ∈ rest, w ∈ akeys (aremove m u) := by
      intro w hw
      have hwm := hsub w (List.mem_cons_of_mem _ hw)
      have hwu : ¬ w = u := fun h => hu (h ▸ hw)
      obtain ⟨x, hx⟩ := alookup_isSome_of_mem hwm
      have : alookup (aremove m u) w = some x := by
        rw [alookup_aremove, if_neg hwu, hx]
      exact mem_akeys_of_alookup this
    have hfeq : List.filter (fun a => decide (a.1 ∉ rest) && decide (a.1 ≠ u)) m =
        List.filter (fun p => decide (p.1 ∉ u :: rest)) m := by
      apply List.filter_congr
      intro p _
      by_cases hp : p.1 = u <;> simp [hp, List.mem_cons]
    simp only [runStaleLoop, aremoveGet, hv, ih (aremove m u) hndrest hrest]
    rw [aremove_eq_filter, List.filter_filter, hfeq]
    rfl

/-! ### The missing loop -/

theorem runMissingLoop_spec (env : Env) :
    ∀ (missing : List IndexUid) (cfgMap : List (IndexUid × IndexConfig))
      (s : DeleteTaskService),
    missing.Nodup →
    (∀ u ∈ missing, u ∈ akeys cfgMap) →
    (∀ u ∈ missing, ∀ cfg, alookup cfgMap u = some cfg →
      ∀ uid, spawnResultUid env cfg = some uid → uid = u) →
    ∃ s₂ evs, runMissingLoop env s cfgMap missing = some (s₂, evs) ∧
      (∀ v, v ∉ missing →
        alookup s₂.pipeline_handles_by_index_uid v =
          alookup s.pipeline_handles_by_index_uid v) ∧
      (∀ v ∈ missing, ∀ cfg, alookup cfgMap v = some cfg →
        (spawnResultUid env cfg = none →
          alookup s₂.pipeline_handles_by_index_uid v =
            alookup s.pipeline_handles_by_index_uid v ∧
          Event.spawnFailWarn v.index_id ∈ evs) ∧
        (spawnResultUid env cfg = some v →
          ∃ h, alookup s₂.pipeline_handles_by_index_uid v = some h)) ∧
      evs.filterMap Event.spawnCallUid = missing ∧
      (∀ e ∈ evs, e.isSpawnEvent = true) ∧
      ((akeys s.pipeline_handles_by_index_uid).Nodup →
        (akeys s₂.pipeline_handles_by_index_uid).Nodup) := by
  intro missing
  induction missing with
  | nil =>
    intro cfgMap s _ _ _
    refine ⟨s, [], rfl, fun v _ => rfl, ?_, rfl, ?_, fun h => h⟩
    · intro v hv
      cases hv
    · intro e he
      cases he
  | cons u rest ih =>
    intro cfgMap s hnd hsub hcons
    simp only [List.nodup_cons] at hnd
    obtain ⟨hu, hndrest⟩ := hnd
    obtain ⟨cfg, hcfg⟩ := alookup_isSome_of_mem (hsub u (List.mem_cons_self _ _))
    have hrg : aremoveGet cfgMap u = some (cfg, aremove cfgMap u) := by
      unfold aremoveGet
      rw [hcfg]
    have hsubrest : ∀ v ∈ rest, v ∈ akeys (aremove cfgMap u) := by
      intro v hv
      have hvu : ¬ v = u := fun h => hu (h ▸ hv)
      obtain ⟨c, hc⟩ := alookup_isSome_of_mem (hsub v (List.mem_cons_of_mem _ hv))
      have : alookup (aremove cfgMap u) v = some c := by
        rw [alookup_aremove, if_neg hvu, hc]
      exact mem_akeys_of_alookup this
    have hconsrest : ∀ v ∈ rest, ∀ c, alookup (aremove cfgMap u) v = some c →
        ∀ uid, spawnResultUid env c = some uid → uid = v := by
      intro v hv c hc uid huid
      have hvu : ¬ v = u := fun h => hu (h ▸ hv)
      rw [alookup_aremove, if_neg hvu] at hc
      exact hcons v (List.mem_cons_of_mem _ hv) c hc uid huid
    cases hres : spawnResultUid env cfg with
    | none =>
      have hsp := spawn_pipeline_of_fail hres s
      obtain ⟨s₂, evs, hrec, hframe, hmiss, hcalls, hkinds, hnodup⟩ :=
        ih (aremove cfgMap u) s hndrest hsubrest hconsrest
      refine ⟨s₂, Event.spawnCall u :: Event.spawnFailWarn u.index_id :: evs,
        ?_, ?_, ?_, ?_, ?_, hnodup⟩
      · simp only [runMissingLoop, hrg, hsp, hrec]
        simp
      · intro v hv
        simp only [List.mem_cons] at hv
        push_neg at hv
        exact hframe v hv.2
      · intro v hv c hc
        rcases List.mem_cons.mp hv with hvu | hvrest
        · subst hvu
          rw [hcfg] at hc
          injection hc with hc
          subst hc
          constructor
          · intro _
            refine ⟨hframe v hu, ?_⟩
            exact List.mem_cons_of_mem _ (List.mem_cons_self _ _)
          · intro hcontra
            rw [hres] at hcontra
            cases hcontra
        · have hvu : ¬ v = u := fun h => hu (h ▸ hvrest)
          have hc' : alookup (aremove cfgMap u) v = some c := by
            rw [alookup_aremove, if_neg hvu, hc]
          have := hmiss v hvrest c hc'
          refine ⟨fun hn => ⟨(this.1 hn).1, ?_⟩, this.2⟩
          exact List.mem_cons_of_mem _ (List.mem_cons_of_mem _ (this.1 hn).2)
      · simp only [List.filterMap_cons]
        simp only [Event.spawnCallUid]
        rw [hcalls]
      · intro e he
        rcases List.mem_cons.mp he with h | he
        · subst h
          rfl
        · rcases List.mem_cons.mp he with h | he
          · subst h
            rfl
          · exact hkinds e he
    | some uid =>
      have huid : uid = u := hcons u (List.mem_cons_self _ _) cfg hcfg uid hres
      subst huid
      have hsp := spawn_pipeline_of_ok hres s
      set s' : DeleteTaskService :=
        ⟨ainsert s.pipeline_handles_by_index_uid uid s.next_handle, s.next_handle + 1⟩ with hs'
      obtain ⟨s₂, evs, hrec, hframe, hmiss, hcalls, hkinds, hnodup⟩ :=
        ih (aremove cfgMap uid) s' hndrest hsubrest hconsrest
      refine ⟨s₂, Event.spawnCall uid :: Event.spawnInsert uid s.next_handle :: evs,
        ?_, ?_, ?_, ?_, ?_, ?_⟩
      · simp only [runMissingLoop, hrg, hsp, hrec]
        simp
      · intro v hv
        simp only [List.mem_cons] at hv
        push_neg at hv
        rw [hframe v hv.2]
        simp [hs', alookup_ainsert, hv.1]
      · intro v hv c hc
        rcases List.mem_cons.mp hv with hvu | hvrest
        · subst hvu
          rw [hcfg] at hc
          injection hc with hc
          subst hc
          constructor
          · intro hcontra
            rw [hres] at hcontra
            cases hcontra
          · intro _
            refine ⟨s.next_handle, ?_⟩
            rw [hframe v hu]
            simp [hs', alookup_ainsert]
        · have hvu : ¬ v = uid := fun h => hu (h ▸ hvrest)
          have hc' : alookup (aremove cfgMap uid) v = some c := by
            rw [alookup_aremove, if_neg hvu, hc]
          have hm := hmiss v hvrest c hc'
          constructor
          · intro hn
            refine ⟨?_, List.mem_cons_of_mem _ (List.mem_cons_of_mem _ (hm.1 hn).2)⟩
            rw [(hm.1 hn).1]
            simp [hs', alookup_ainsert, hvu]
          · exact hm.2
      · simp only [List.filterMap_cons]
        simp only [Event.spawnCallUid]
        rw [hcalls]
      · intro e he
        rcases List.mem_cons.mp he with h | he
        · subst h
          rfl
        · rcases List.mem_cons.mp he with h | he
          · subst h
            rfl
          · exact hkinds e he
      · intro hnd0
        apply hnodup
        rw [hs']
        exact nodup_akeys_ainsert uid s.next_handle hnd0

theorem runMissingLoop_total (env : Env) :
    ∀ (missing : List IndexUid) (cfgMap : List (IndexUid × IndexConfig))
      (s : DeleteTaskService),
    missing.Nodup →
    (∀ u ∈ missing, u ∈ akeys cfgMap) →
    ∃ s₂ evs, runMissingLoop env s cfgMap missing = some (s₂, evs) ∧
      evs.filterMap Event.spawnCallUid = missing ∧
      (∀ e ∈ evs, e.isSpawnEvent = true) ∧
      ((akeys s.pipeline_handles_by_index_uid).Nodup →
        (akeys s₂.pipeline_handles_by_index_uid).Nodup) := by
  intro missing
  induction missing with
  | nil =>
    intro cfgMap s _ _
    refine ⟨s, [], rfl, rfl, ?_, fun h => h⟩
    intro e he
    cases he
  | cons u rest ih =>
    intro cfgMap s hnd hsub
    simp only [List.nodup_cons] at hnd
    obtain ⟨hu, hndrest⟩ := hnd
    obtain ⟨cfg, hcfg⟩ := alookup_isSome_of_mem (hsub u (List.mem_cons_self _ _))
    have hrg : aremoveGet cfgMap u = some (cfg, aremove cfgMap u) := by
      unfold aremoveGet
      rw [hcfg]
    have hsubrest : ∀ v ∈ rest, v ∈ akeys (aremove cfgMap u) := by
      intro v hv
      have hvu : ¬ v = u := fun h => hu (h ▸ hv)
      obtain ⟨c, hc⟩ := alookup_isSome_of_mem (hsub v (List.mem_cons_of_mem _ hv))
      have : alookup (aremove cfgMap u) v = some c := by
        rw [alookup_aremove, if_neg hvu, hc]
      exact mem_akeys_of_alookup this
    cases hres : spawnResultUid env cfg with
    | none =>
      have hsp := spawn_pipeline_of_fail hres s
      obtain ⟨s₂, evs, hrec, hcalls, hkinds, hnodup⟩ :=
        ih (aremove cfgMap u) s hndrest hsubrest
      refine ⟨s₂, Event.spawnCall u :: Event.spawnFailWarn u.index_id :: evs,
        ?_, ?_, ?_, hnodup⟩
      · simp only [runMissingLoop, hrg, hsp, hrec]
        simp
      · simp only [List.filterMap_cons, Event.spawnCallUid]
        rw [hcalls]
      · intro e he
        rcases List.mem_cons.mp he with h | he
        · subst h
          rfl
        · rcases List.mem_cons.mp he with h | he
          · subst h
            rfl
          · exact hkinds e he
    | some uid =>
      have hsp := spawn_pipeline_of_ok hres s
      obtain ⟨s₂, evs, hrec, hcalls, hkinds, hnodup⟩ :=
        ih (aremove cfgMap u)
          ⟨ainsert s.pipeline_handles_by_index_uid uid s.next_handle, s.next_handle + 1⟩
          hndrest hsubrest
      refine ⟨s₂, Event.spawnCall u :: Event.spawnInsert uid s.next_handle :: evs,
        ?_, ?_, ?_, ?_⟩
      · simp only [runMissingLoop, hrg, hsp, hrec]
        simp
      · simp only [List.filterMap_cons, Event.spawnCallUid]
        rw [hcalls]
      · intro e he
        rcases List.mem_cons.mp he with h | he
        · subst h
          rfl
        · rcases List.mem_cons.mp he with h | he
          · subst h
            rfl
          · exact hkinds e he
      · intro hnd0
        exact hnodup (nodup_akeys_ainsert uid s.next_handle hnd0)

theorem runMissingLoop_length (env : Env) :
    ∀ (missing : List IndexUid) (cfgMap : List (IndexUid × IndexConfig))
      (s : DeleteTaskService),
    missing.Nodup →
    (∀ u ∈ missing, u ∈ akeys cfgMap) →
    (∀ u ∈ missing, ∀ cfg, alookup cfgMap u = some cfg → spawnResultUid env cfg = some u) →
    (∀ u ∈ missing, u ∉ akeys s.pipeline_handles_by_index_uid) →
    ∃ s₂ evs, runMissingLoop env s cfgMap missing = some (s₂, evs) ∧
      s₂.pipeline_handles_by_index_uid.length =
        s.pipeline_handles_by_index_uid.length + missing.length := by
  intro missing
  induction missing with
  | nil =>
    intro cfgMap s _ _ _ _
    exact ⟨s, [], rfl, by simp⟩
  | cons u rest ih =>
    intro cfgMap s hnd hsub hok hdisj
    simp only [List.nodup_cons] at hnd
    obtain ⟨hu, hndrest⟩ := hnd
    obtain ⟨cfg, hcfg⟩ := alookup_isSome_of_mem (hsub u (List.mem_cons_self _ _))
    have hrg : aremoveGet cfgMap u = some (cfg, aremove cfgMap u) := by
      unfold aremoveGet
      rw [hcfg]
    have hres := hok u (List.mem_cons_self _ _) cfg hcfg
    have hsp := spawn_pipeline_of_ok hres s
    have hsubrest : ∀ v ∈ rest, v ∈ akeys (aremove cfgMap u) := by
      intro v hv
      have hvu : ¬ v = u := fun h => hu (h ▸ hv)
      obtain ⟨c, hc⟩ := alookup_isSome_of_mem (hsub v (List.mem_cons_of_mem _ hv))
      have : alookup (aremove cfgMap u) v = some c := by
        rw [alookup_aremove, if_neg hvu, hc]
      exact mem_akeys_of_alookup this
    have hokrest : ∀ v ∈ rest, ∀ c, alookup (aremove cfgMap u) v = some c →
        spawnResultUid env c = some v := by
      intro v hv c hc
      have hvu : ¬ v = u := fun h => hu (h ▸ hv)
      rw [alookup_aremove, if_neg hvu] at hc
      exact hok v (List.mem_cons_of_mem _ hv) c hc
    have hdisjrest : ∀ v ∈ rest,
        v ∉ akeys (ainsert s.pipeline_handles_by_index_uid u s.next_handle) := by
      intro v hv hmem
      rcases (mem_akeys_ainsert _ _ _ _).mp hmem with h | h
      · exact hu (h ▸ hv)
      · exact hdisj v (List.mem_cons_of_mem _ hv) h
    obtain ⟨s₂, evs, hrec, hlen⟩ :=
      ih (aremove cfgMap u)
        ⟨ainsert s.pipeline_handles_by_index_uid u s.next_handle, s.next_handle + 1⟩
        hndrest hsubrest hokrest hdisjrest
    refine ⟨s₂, Event.spawnCall u :: Event.spawnInsert u s.next_handle :: evs, ?_, ?_⟩
    · simp only [runMissingLoop, hrg, hsp, hrec]
      simp
    · have hnotin : u ∉ akeys s.pipeline_handles_by_index_uid :=
        hdisj u (List.mem_cons_self _ _)
      simp only at hlen
      rw [hlen, length_ainsert_of_not_mem _ hnotin]
      simp only [List.length_cons]
      omega

/-! ### One full pass -/

theorem update_pipeline_handles_spec (env : Env) (s : DeleteTaskService)
    (l : List IndexMetadata) (hl : env.listing = Except.ok l)
    (hkeys : (akeys s.pipeline_handles_by_index_uid).Nodup) :
    ∃ s₂ missingEvs,
      update_pipeline_handles env s =
        some (s₂, (staleUids s l).flatMap staleEvents ++ missingEvs, true) ∧
      runMissingLoop env
        ⟨s.pipeline_handles_by_index_uid.filter
            (fun p => decide (p.1 ∈ desiredUids l)), s.next_handle⟩
        (buildConfigMap l) (missingUids s l) = some (s₂, missingEvs) ∧
      missingEvs.filterMap Event.spawnCallUid = missingUids s l ∧
      (∀ e ∈ missingEvs, e.isSpawnEvent = true) ∧
      (akeys s₂.pipeline_handles_by_index_uid).Nodup := by
  have hstale_nodup : (staleUids s l).Nodup := hkeys.filter _
  have hstale_sub : ∀ u ∈ staleUids s l, u ∈ akeys s.pipeline_handles_by_index_uid := by
    intro u hu
    exact (List.mem_filter.mp hu).1
  have hsl := runStaleLoop_spec (staleUids s l) s.pipeline_handles_by_index_uid
    hstale_nodup hstale_sub
  have hmapeq : s.pipeline_handles_by_index_uid.filter
      (fun p => decide (p.1 ∉ staleUids s l)) =
      s.pipeline_handles_by_index_uid.filter (fun p => decide (p.1 ∈ desiredUids l)) := by
    apply List.filter_congr
    intro p hp
    have hpk : p.1 ∈ akeys s.pipeline_handles_by_index_uid :=
      List.mem_map_of_mem Prod.fst hp
    by_cases hd : p.1 ∈ desiredUids l
    · have : p.1 ∉ staleUids s l := by
        intro hmem
        have := (List.mem_filter.mp hmem).2
        simp only [decide_eq_true_eq] at this
        exact this hd
      simp [this, hd]
    · have : p.1 ∈ staleUids s l := by
        apply List.mem_filter.mpr
        exact ⟨hpk, by simp [hd]⟩
      simp [this, hd]
  have hmiss_nodup : (missingUids s l).Nodup := (nodup_akeys_buildConfigMap l).filter _
  have hmiss_sub : ∀ u ∈ missingUids s l, u ∈ akeys (buildConfigMap l) := by
    intro u hu
    exact (List.mem_filter.mp hu).1
  obtain ⟨s₂, missingEvs, hrec, hcalls, hkinds, hnodup⟩ :=
    runMissingLoop_total env (missingUids s l) (buildConfigMap l)
      ⟨s.pipeline_handles_by_index_uid.filter
          (fun p => decide (p.1 ∈ desiredUids l)), s.next_handle⟩
      hmiss_nodup hmiss_sub
  refine ⟨s₂, missingEvs, ?_, hrec, hcalls, hkinds, ?_⟩
  · unfold update_pipeline_handles
    rw [hl]
    have hsl' : runStaleLoop s.pipeline_handles_by_index_uid
        (List.filter (fun u => decide (u ∉ akeys (buildConfigMap l)))
          (akeys s.pipeline_handles_by_index_uid)) =
        some (List.filter (fun p => decide (p.1 ∉ staleUids s l))
            s.pipeline_handles_by_index_uid,
          (staleUids s l).flatMap staleEvents) := hsl
    have hrec' : runMissingLoop env
        ⟨List.filter (fun p => decide (p.1 ∈ desiredUids l))
            s.pipeline_handles_by_index_uid, s.next_handle⟩
        (buildConfigMap l)
        (List.filter (fun u => decide (u ∉ akeys s.pipeline_handles_by_index_uid))
          (akeys (buildConfigMap l))) = some (s₂, missingEvs) := hrec
    simp only [hsl']
    rw [hmapeq]
    simp only [hrec']
  · apply hnodup
    show (akeys (s.pipeline_handles_by_index_uid.filter
        (fun p => decide (p.1 ∈ desiredUids l)))).Nodup
    rw [akeys_filter (fun k => decide (k ∈ desiredUids l))]
    exact hkeys.filter _

/-! ### Facts about the event traces -/

theorem staleEvents_all_stale {stale : List IndexUid} :
    ∀ e ∈ stale.flatMap staleEvents, e.isStaleEvent = true := by
  intro e he
  obtain ⟨u, _, heu⟩ := List.mem_flatMap.mp he
  simp only [staleEvents, List.mem_cons, List.mem_singleton] at heu
  rcases heu with h | h | h | h
  · subst h; rfl
  · subst h; rfl
  · subst h; rfl
  · cases h

theorem killRequest_mem_flatMap {stale : List IndexUid} {v : IndexUid} :
    Event.killRequest v ∈ stale.flatMap staleEvents ↔ v ∈ stale := by
  rw [List.mem_flatMap]
  constructor
  · rintro ⟨u, hu, hmem⟩
    simp only [staleEvents, List.mem_cons, List.mem_singleton] at hmem
    rcases hmem with h | h | h | h
    · cases h
    · injection h with h
      subst h
      exact hu
    · cases h
    · cases h
  · intro hv
    exact ⟨v, hv, by simp [staleEvents]⟩

theorem spawnCallUid_eq_some {e : Event} {v : IndexUid} :
    e.spawnCallUid = some v ↔ e = Event.spawnCall v := by
  cases e <;> simp [Event.spawnCallUid]

theorem spawnCall_mem_of_filterMap {evs : List Event} {missing : List IndexUid}
    (h : evs.filterMap Event.spawnCallUid = missing) {v : IndexUid} :
    Event.spawnCall v ∈ evs ↔ v ∈ missing := by
  rw [← h, List.mem_filterMap]
  constructor
  · intro hmem
    exact ⟨Event.spawnCall v, hmem, rfl⟩
  · rintro ⟨e, he, heq⟩
    rw [spawnCallUid_eq_some.mp heq] at he
    exact he

theorem isSpawn_not_isStale {e : Event} (h : e.isSpawnEvent = true) :
    e.isStaleEvent = false := by
  cases e <;> first | rfl | cases h

theorem mem_staleUids_iff {s : DeleteTaskService} {l : List IndexMetadata} {v : IndexUid} :
    v ∈ staleUids s l ↔
      v ∈ akeys s.pipeline_handles_by_index_uid ∧ v ∉ l.map IndexMetadata.index_uid := by
  unfold staleUids
  rw [List.mem_filter]
  simp only [decide_eq_true_eq]
  unfold desiredUids
  rw [mem_akeys_buildConfigMap]

theorem mem_missingUids_iff {s : DeleteTaskService} {l : List IndexMetadata} {v : IndexUid} :
    v ∈ missingUids s l ↔
      v ∈ l.map IndexMetadata.index_uid ∧ v ∉ akeys s.pipeline_handles_by_index_uid := by
  unfold missingUids
  rw [List.mem_filter]
  simp only [decide_eq_true_eq]
  unfold desiredUids
  rw [mem_akeys_buildConfigMap]

/-! ### Claim theorems -/

/-- C9: the two `.expect` calls inside a reconciliation pass can never panic:
whenever the handle map has no duplicate keys (which holds for every reachable
state, as the map starts empty and the pass preserves key uniqueness), the pass
never evaluates to `none` - every stale uid is still in the map when removed,
and every missing uid still has its config in the listing map when looked up. -/
theorem pass_expects_never_panic (env : Env) (s : DeleteTaskService)
    (hkeys : (akeys s.pipeline_handles_by_index_uid).Nodup) :
    (update_pipeline_handles env s).isSome = true := by
  cases hl : env.listing with
  | error e =>
    unfold update_pipeline_handles
    rw [hl]
    rfl
  | ok l =>
    obtain ⟨s₂, missingEvs, heq, _⟩ := update_pipeline_handles_spec env s l hl hkeys
    rw [heq]
    rfl

/-- Witness for C9 at a concrete service state and environment. -/
theorem pass_expects_never_panic_witness :
    (akeys s0.pipeline_handles_by_index_uid).Nodup ∧
      (update_pipeline_handles envA s0).isSome = true :=
  ⟨by decide, pass_expects_never_panic envA s0 (by decide)⟩

/-- C3: when the metastore listing (or the deserialization of its response)
fails, the pass performs no stop and no spawn (its event trace is empty), the
handle map and the whole state are exactly as before, the pass result is the
error (`false`), the handler logs an error, and the service does not exit: the
handler still returns normally (`some`) and schedules the next pass. -/
theorem listing_error_pass_aborted (env : Env) (s : DeleteTaskService)
    (err : String) (hl : env.listing = Except.error err) :
    update_pipeline_handles env s = some (s, [], false) ∧
    handle_update_pipelines env s =
      some (s, [Event.errorLog, Event.scheduleSelf]) := by
  have h1 : update_pipeline_handles env s = some (s, [], false) := by
    unfold update_pipeline_handles
    rw [hl]
  refine ⟨h1, ?_⟩
  unfold handle_update_pipelines
  rw [h1]
  rfl

/-- Witness for C3 at a concrete failing environment. -/
theorem listing_error_pass_aborted_witness :
    update_pipeline_handles envDown s0 = some (s0, [], false) ∧
    handle_update_pipelines envDown s0 =
      some (s0, [Event.errorLog, Event.scheduleSelf]) :=
  listing_error_pass_aborted envDown s0 "metastore unavailable" rfl

/-- C7: a successful spawn inserts the new handle under the uid of the freshly
fetched metadata (not under any uid taken from the bulk listing): the inserted
key is `meta.index_uid`, that key maps to the new handle, and the binding of
every other uid - in particular a differing listing uid - is unchanged. -/
theorem spawn_inserts_fetched_uid (env : Env) (s : DeleteTaskService)
    (cfg : IndexConfig) (r : Unit) (meta : IndexMetadata)
    (hr : env.resolve cfg.index_uri = Except.ok r)
    (hf : env.fetchMeta cfg.index_id = Except.ok meta) :
    spawn_pipeline env s cfg =
      (⟨ainsert s.pipeline_handles_by_index_uid meta.index_uid s.next_handle,
        s.next_handle + 1⟩,
       [Event.spawnInsert meta.index_uid s.next_handle], true) ∧
    alookup (ainsert s.pipeline_handles_by_index_uid meta.index_uid s.next_handle)
      meta.index_uid = some s.next_handle ∧
    (∀ v, v ≠ meta.index_uid →
      alookup (ainsert s.pipeline_handles_by_index_uid meta.index_uid s.next_handle) v =
        alookup s.pipeline_handles_by_index_uid v) := by
  have hres : spawnResultUid env cfg = some meta.index_uid := by
    unfold spawnResultUid
    rw [hr, hf]
  refine ⟨spawn_pipeline_of_ok hres s, ?_, ?_⟩
  · rw [alookup_ainsert, if_pos rfl]
  · intro v hv
    rw [alookup_ainsert, if_neg hv]

/-- Witness for C7: spawning with a fetch that returns `imA` inserts under
`uidA`. -/
theorem spawn_inserts_fetched_uid_witness :
    spawn_pipeline envA s0 cfgA =
      (⟨ainsert s0.pipeline_handles_by_index_uid imA.index_uid s0.next_handle,
        s0.next_handle + 1⟩,
       [Event.spawnInsert imA.index_uid s0.next_handle], true) ∧
    alookup (ainsert s0.pipeline_handles_by_index_uid imA.index_uid s0.next_handle)
      imA.index_uid = some s0.next_handle ∧
    (∀ v, v ≠ imA.index_uid →
      alookup (ainsert s0.pipeline_handles_by_index_uid imA.index_uid s0.next_handle) v =
        alookup s0.pipeline_handles_by_index_uid v) :=
  spawn_inserts_fetched_uid envA s0 cfgA () imA rfl rfl

/-- C8: after every handling of the `UpdatePipelines` timer message - whether
the pass succeeded or the listing failed - the handler schedules exactly one
future self-message (one `scheduleSelf` event, and it is the very last action
of the handler). -/
theorem handler_schedules_exactly_one (env : Env) (s : DeleteTaskService)
    (hkeys : (akeys s.pipeline_handles_by_index_uid).Nodup) :
    ∃ s₁ evs, handle_update_pipelines env s = some (s₁, evs) ∧
      evs.count Event.scheduleSelf = 1 ∧
      evs.getLast? = some Event.scheduleSelf := by
  cases hl : env.listing with
  | error e =>
    have h1 : update_pipeline_handles env s = some (s, [], false) := by
      unfold update_pipeline_handles
      rw [hl]
    refine ⟨s, [Event.errorLog, Event.scheduleSelf], ?_, by decide, rfl⟩
    unfold handle_update_pipelines
    rw [h1]
    rfl
  | ok l =>
    obtain ⟨s₂, missingEvs, heq, _, _, hkinds, _⟩ :=
      update_pipeline_handles_spec env s l hl hkeys
    refine ⟨s₂,
      ((staleUids s l).flatMap staleEvents ++ missingEvs) ++ [Event.scheduleSelf],
      ?_, ?_, ?_⟩
    · unfold handle_update_pipelines
      rw [heq]
      simp
    · rw [List.count_append]
      have hz : ((staleUids s l).flatMap staleEvents ++ missingEvs).count
          Event.scheduleSelf = 0 := by
        rw [List.count_eq_zero]
        intro hmem
        rcases List.mem_append.mp hmem with h | h
        · cases staleEvents_all_stale _ h
        · cases hkinds _ h
      rw [hz]
      rfl
    · rw [List.getLast?_concat]

/-- Witness for C8 at a concrete failing environment. -/
theorem handler_schedules_exactly_one_witness :
    (akeys s0.pipeline_handles_by_index_uid).Nodup ∧
      ∃ s₁ evs, handle_update_pipelines envDown s0 = some (s₁, evs) ∧
        evs.count Event.scheduleSelf = 1 ∧
        evs.getLast? = some Event.scheduleSelf :=
  ⟨by decide, handler_schedules_exactly_one envDown s0 (by decide)⟩

/-- C2: in a pass whose listing succeeded, the uids whose pipelines receive a
kill are exactly the keys of the handle map minus the listed uids, the uids
for which `spawn_pipeline` is called are exactly the listed uids minus the
keys of the handle map, and the trace splits into all removal events followed
by all spawn events: every removal of the pass happens before any addition. -/
theorem pass_diff_sets (env : Env) (s : DeleteTaskService) (l : List IndexMetadata)
    (hl : env.listing = Except.ok l)
    (hkeys : (akeys s.pipeline_handles_by_index_uid).Nodup) :
    ∃ s₂ evs₁ evs₂,
      update_pipeline_handles env s = some (s₂, evs₁ ++ evs₂, true) ∧
      (∀ e ∈ evs₁, e.isStaleEvent = true) ∧
      (∀ e ∈ evs₂, e.isSpawnEvent = true) ∧
      (∀ v, Event.killRequest v ∈ evs₁ ++ evs₂ ↔
        v ∈ akeys s.pipeline_handles_by_index_uid ∧
          v ∉ l.map IndexMetadata.index_uid) ∧
      (∀ v, Event.spawnCall v ∈ evs₁ ++ evs₂ ↔
        v ∈ l.map IndexMetadata.index_uid ∧
          v ∉ akeys s.pipeline_handles_by_index_uid) := by
  obtain ⟨s₂, missingEvs, heq, _, hcalls, hkinds, _⟩ :=
    update_pipeline_handles_spec env s l hl hkeys
  refine ⟨s₂, (staleUids s l).flatMap staleEvents, missingEvs, heq,
    staleEvents_all_stale, hkinds, ?_, ?_⟩
  · intro v
    rw [List.mem_append]
    constructor
    · rintro (h | h)
      · exact mem_staleUids_iff.mp (killRequest_mem_flatMap.mp h)
      · cases hkinds _ h
    · intro hv
      exact Or.inl (killRequest_mem_flatMap.mpr (mem_staleUids_iff.mpr hv))
  · intro v
    rw [List.mem_append]
    constructor
    · rintro (h | h)
      · cases staleEvents_all_stale _ h
      · exact mem_missingUids_iff.mp ((spawnCall_mem_of_filterMap hcalls).mp h)
    · intro hv
      exact Or.inr ((spawnCall_mem_of_filterMap hcalls).mpr (mem_missingUids_iff.mpr hv))

/-- Witness for C2: from a state owning a pipeline for `uidB` while only
`uidA` is listed. -/
theorem pass_diff_sets_witness :
    (akeys (DeleteTaskService.mk [(uidB, 3)] 4).pipeline_handles_by_index_uid).Nodup ∧
    ∃ s₂ evs₁ evs₂,
      update_pipeline_handles envA (DeleteTaskService.mk [(uidB, 3)] 4) =
        some (s₂, evs₁ ++ evs₂, true) ∧
      (∀ e ∈ evs₁, e.isStaleEvent = true) ∧
      (∀ e ∈ evs₂, e.isSpawnEvent = true) ∧
      (∀ v, Event.killRequest v ∈ evs₁ ++ evs₂ ↔
        v ∈ akeys (DeleteTaskService.mk [(uidB, 3)] 4).pipeline_handles_by_index_uid ∧
          v ∉ [imA].map IndexMetadata.index_uid) ∧
      (∀ v, Event.spawnCall v ∈ evs₁ ++ evs₂ ↔
        v ∈ [imA].map IndexMetadata.index_uid ∧
          v ∉ akeys (DeleteTaskService.mk [(uidB, 3)] 4).pipeline_handles_by_index_uid) :=
  ⟨by decide, pass_diff_sets envA (DeleteTaskService.mk [(uidB, 3)] 4) [imA] rfl (by decide)⟩

/-- C6: the trace of a pass whose listing succeeded starts with, for each stale
uid in order: the removal of its map entry, then the kill request for its
pipeline, then the awaited kill acknowledgment - so each entry is removed
strictly before its pipeline's termination is requested and awaited, and each
stop is acknowledged before the next stale uid is processed; everything after
this block is spawn work, never a removal. -/
theorem stale_removed_then_killed_in_order (env : Env) (s : DeleteTaskService)
    (l : List IndexMetadata) (hl : env.listing = Except.ok l)
    (hkeys : (akeys s.pipeline_handles_by_index_uid).Nodup) :
    ∃ s₂ rest,
      update_pipeline_handles env s =
        some (s₂, (staleUids s l).flatMap
          (fun u => [Event.removeEntry u, Event.killRequest u, Event.killAck u]) ++ rest,
          true) ∧
      ∀ e ∈ rest, e.isStaleEvent = false := by
  obtain ⟨s₂, missingEvs, heq, _, _, hkinds, _⟩ :=
    update_pipeline_handles_spec env s l hl hkeys
  exact ⟨s₂, missingEvs, heq, fun e he => isSpawn_not_isStale (hkinds e he)⟩

/-- Witness for C6: from a state owning a pipeline for `uidB` while only
`uidA` is listed, so that the stale set is nonempty. -/
theorem stale_removed_then_killed_in_order_witness :
    (akeys (DeleteTaskService.mk [(uidB, 3)] 4).pipeline_handles_by_index_uid).Nodup ∧
    ∃ s₂ rest,
      update_pipeline_handles envA (DeleteTaskService.mk [(uidB, 3)] 4) =
        some (s₂, (staleUids (DeleteTaskService.mk [(uidB, 3)] 4) [imA]).flatMap
          (fun u => [Event.removeEntry u, Event.killRequest u, Event.killAck u]) ++ rest,
          true) ∧
      ∀ e ∈ rest, e.isStaleEvent = false :=
  ⟨by decide, stale_removed_then_killed_in_order envA
    (DeleteTaskService.mk [(uidB, 3)] 4) [imA] rfl (by decide)⟩

theorem consistentFetch_envA : ConsistentFetch envA [imA] := by
  intro im him meta hm
  simp only [List.mem_singleton] at him
  subst him
  have hm' : (Except.ok imA : Except String IndexMetadata) = Except.ok meta := hm
  injection hm' with hmeq
  rw [← hmeq]

theorem consistentFetch_envStorageDown : ConsistentFetch envStorageDown [imA] := by
  intro im him meta hm
  simp only [List.mem_singleton] at him
  subst him
  have hm' : (Except.ok imA : Except String IndexMetadata) = Except.ok meta := hm
  injection hm' with hmeq
  rw [← hmeq]

/-- C10: a uid that both owns a pipeline and is still listed is left alone by
the pass: its pipeline receives no kill, no spawn is called for it, and its
map entry still holds exactly the same handle afterwards.  (The consistency
hypothesis rules out a fresh fetch for some other index returning this uid
and overwriting its entry.) -/
theorem live_listed_pipeline_untouched (env : Env) (s : DeleteTaskService)
    (l : List IndexMetadata) (u : IndexUid) (h : Nat)
    (hl : env.listing = Except.ok l)
    (hkeys : (akeys s.pipeline_handles_by_index_uid).Nodup)
    (hcons : ConsistentFetch env l)
    (hmem : alookup s.pipeline_handles_by_index_uid u = some h)
    (hdes : u ∈ l.map IndexMetadata.index_uid) :
    ∃ s₂ evs, update_pipeline_handles env s = some (s₂, evs, true) ∧
      alookup s₂.pipeline_handles_by_index_uid u = some h ∧
      Event.killRequest u ∉ evs ∧
      Event.spawnCall u ∉ evs := by
  obtain ⟨s₂, missingEvs, heq, hrun, hcalls, hkinds, _⟩ :=
    update_pipeline_handles_spec env s l hl hkeys
  obtain ⟨s₂', evs', hrec', hframe, _, _, _, _⟩ :=
    runMissingLoop_spec env (missingUids s l) (buildConfigMap l)
      ⟨s.pipeline_handles_by_index_uid.filter
          (fun p => decide (p.1 ∈ desiredUids l)), s.next_handle⟩
      ((nodup_akeys_buildConfigMap l).filter _)
      (fun v hv => (List.mem_filter.mp hv).1)
      (fun v _ cfg hcfg uid huid => consistent_spawn_uid hcons hcfg uid huid)
  rw [hrun] at hrec'
  simp only [Option.some.injEq, Prod.mk.injEq] at hrec'
  obtain ⟨hs₂, hevs⟩ := hrec'
  subst hs₂
  have humiss : u ∉ missingUids s l := fun hmm =>
    (mem_missingUids_iff.mp hmm).2 (mem_akeys_of_alookup hmem)
  have hudes : u ∈ akeys (buildConfigMap l) := (mem_akeys_buildConfigMap l u).mpr hdes
  have hlook : alookup s₂.pipeline_handles_by_index_uid u = some h := by
    rw [hframe u humiss]
    show alookup (s.pipeline_handles_by_index_uid.filter
      (fun p => decide (p.1 ∈ desiredUids l))) u = some h
    have hb : decide (u ∈ desiredUids l) = true := decide_eq_true hudes
    rw [alookup_filter (fun k => decide (k ∈ desiredUids l)), if_pos hb]
    exact hmem
  refine ⟨s₂, (staleUids s l).flatMap staleEvents ++ missingEvs, heq, hlook, ?_, ?_⟩
  · intro hkill
    rcases List.mem_append.mp hkill with hk | hk
    · exact (mem_staleUids_iff.mp (killRequest_mem_flatMap.mp hk)).2 hdes
    · cases hkinds _ hk
  · intro hcall
    rcases List.mem_append.mp hcall with hk | hk
    · cases staleEvents_all_stale _ hk
    · exact humiss ((spawnCall_mem_of_filterMap hcalls).mp hk)

/-- Witness for C10: `uidA` owns pipeline handle `7` and is still listed. -/
theorem live_listed_pipeline_untouched_witness :
    (akeys (DeleteTaskService.mk [(uidA, 7)] 8).pipeline_handles_by_index_uid).Nodup ∧
    ∃ s₂ evs,
      update_pipeline_handles envA (DeleteTaskService.mk [(uidA, 7)] 8) =
        some (s₂, evs, true) ∧
      alookup s₂.pipeline_handles_by_index_uid uidA = some 7 ∧
      Event.killRequest uidA ∉ evs ∧
      Event.spawnCall uidA ∉ evs :=
  ⟨by decide, live_listed_pipeline_untouched envA (DeleteTaskService.mk [(uidA, 7)] 8)
    [imA] uidA 7 rfl (by decide) consistentFetch_envA (by decide) (by decide)⟩

/-- C5: when the spawn of a missing uid fails (storage resolution or per-index
fetch errors), only that uid's addition is skipped: a warning with its index id
is logged, the uid ends the pass absent from the handle map, every other
missing uid of the pass still gets its spawn call, the uid is recomputed into
the missing set of the next pass, and that next pass calls spawn for it again.
(The consistency hypothesis rules out another index's fresh fetch inserting an
entry under this uid.) -/
theorem spawn_failure_skips_only_failed (env : Env) (s : DeleteTaskService)
    (l : List IndexMetadata) (u : IndexUid)
    (hl : env.listing = Except.ok l)
    (hkeys : (akeys s.pipeline_handles_by_index_uid).Nodup)
    (hcons : ConsistentFetch env l)
    (hdes : u ∈ l.map IndexMetadata.index_uid)
    (hnot : u ∉ akeys s.pipeline_handles_by_index_uid)
    (hfail : ∀ cfg, alookup (buildConfigMap l) u = some cfg →
      spawnResultUid env cfg = none) :
    ∃ s₂ evs, update_pipeline_handles env s = some (s₂, evs, true) ∧
      Event.spawnFailWarn u.index_id ∈ evs ∧
      alookup s₂.pipeline_handles_by_index_uid u = none ∧
      (∀ v, v ∈ l.map IndexMetadata.index_uid →
        v ∉ akeys s.pipeline_handles_by_index_uid → Event.spawnCall v ∈ evs) ∧
      u ∈ missingUids s₂ l ∧
      ∃ s₃ evs₂, update_pipeline_handles env s₂ = some (s₃, evs₂, true) ∧
        Event.spawnCall u ∈ evs₂ := by
  obtain ⟨s₂, missingEvs, heq, hrun, hcalls, hkinds, hnodup₂⟩ :=
    update_pipeline_handles_spec env s l hl hkeys
  obtain ⟨s₂', evs', hrec', hframe, hmiss, _, _, _⟩ :=
    runMissingLoop_spec env (missingUids s l) (buildConfigMap l)
      ⟨s.pipeline_handles_by_index_uid.filter
          (fun p => decide (p.1 ∈ desiredUids l)), s.next_handle⟩
      ((nodup_akeys_buildConfigMap l).filter _)
      (fun v hv => (List.mem_filter.mp hv).1)
      (fun v _ cfg hcfg uid huid => consistent_spawn_uid hcons hcfg uid huid)
  rw [hrun] at hrec'
  simp only [Option.some.injEq, Prod.mk.injEq] at hrec'
  obtain ⟨hs₂, hevs⟩ := hrec'
  subst hs₂
  subst hevs
  have humiss : u ∈ missingUids s l := mem_missingUids_iff.mpr ⟨hdes, hnot⟩
  have hukey : u ∈ akeys (buildConfigMap l) := (mem_akeys_buildConfigMap l u).mpr hdes
  obtain ⟨cfg, hcfg⟩ := alookup_isSome_of_mem hukey
  have hres := hfail cfg hcfg
  obtain ⟨hlookeq, hwarn⟩ := (hmiss u humiss cfg hcfg).1 hres
  have hlooknone : alookup s₂.pipeline_handles_by_index_uid u = none := by
    rw [hlookeq]
    show alookup (s.pipeline_handles_by_index_uid.filter
      (fun p => decide (p.1 ∈ desiredUids l))) u = none
    rw [alookup_filter (fun k => decide (k ∈ desiredUids l))]
    by_cases hu₂ : u ∈ desiredUids l
    · rw [if_pos (decide_eq_true hu₂)]
      exact (alookup_eq_none_iff _ _).mpr hnot
    · rw [if_neg (fun hb => hu₂ (of_decide_eq_true hb))]
  have hnotin₂ : u ∉ akeys s₂.pipeline_handles_by_index_uid :=
    (alookup_eq_none_iff _ _).mp hlooknone
  have humiss₂ : u ∈ missingUids s₂ l := mem_missingUids_iff.mpr ⟨hdes, hnotin₂⟩
  obtain ⟨s₃, missingEvs₂, heq₂, _, hcalls₂, _, _⟩ :=
    update_pipeline_handles_spec env s₂ l hl hnodup₂
  refine ⟨s₂, (staleUids s l).flatMap staleEvents ++ missingEvs, heq,
    List.mem_append_right _ hwarn, hlooknone, ?_, humiss₂,
    s₃, (staleUids s₂ l).flatMap staleEvents ++ missingEvs₂, heq₂, ?_⟩
  · intro v hvdes hvnot
    exact List.mem_append_right _
      ((spawnCall_mem_of_filterMap hcalls).mpr (mem_missingUids_iff.mpr ⟨hvdes, hvnot⟩))
  · exact List.mem_append_right _ ((spawnCall_mem_of_filterMap hcalls₂).mpr humiss₂)

/-- Witness for C5: storage resolution fails for the one listed index. -/
theorem spawn_failure_skips_only_failed_witness :
    (akeys s0.pipeline_handles_by_index_uid).Nodup ∧
    ∃ s₂ evs, update_pipeline_handles envStorageDown s0 = some (s₂, evs, true) ∧
      Event.spawnFailWarn uidA.index_id ∈ evs ∧
      alookup s₂.pipeline_handles_by_index_uid uidA = none ∧
      (∀ v, v ∈ [imA].map IndexMetadata.index_uid →
        v ∉ akeys s0.pipeline_handles_by_index_uid → Event.spawnCall v ∈ evs) ∧
      uidA ∈ missingUids s₂ [imA] ∧
      ∃ s₃ evs₂, update_pipeline_handles envStorageDown s₂ = some (s₃, evs₂, true) ∧
        Event.spawnCall uidA ∈ evs₂ :=
  ⟨by decide, spawn_failure_skips_only_failed envStorageDown s0 [imA] uidA rfl
    (by decide) consistentFetch_envStorageDown (by decide) (by decide)
    (fun cfg _ => rfl)⟩

/-- C4: when the listing succeeds, the store is consistent and every listed
index can be spawned, running the pass a second time from the state the first
pass produced (with the same listing) performs no action at all: the second
pass emits an empty trace - zero spawn calls, zero kills - and returns the
state of the first pass unchanged. -/
theorem reconciliation_idempotent (env : Env) (s : DeleteTaskService)
    (l : List IndexMetadata)
    (hl : env.listing = Except.ok l)
    (hkeys : (akeys s.pipeline_handles_by_index_uid).Nodup)
    (hcons : ConsistentFetch env l)
    (hok : AllSpawnsOk env l) :
    ∃ s₁ evs₁, update_pipeline_handles env s = some (s₁, evs₁, true) ∧
      update_pipeline_handles env s₁ = some (s₁, [], true) := by
  obtain ⟨s₁, missingEvs, heq, hrun, hcalls, hkinds, hnodup₁⟩ :=
    update_pipeline_handles_spec env s l hl hkeys
  obtain ⟨s₁', evs', hrec', hframe, hmiss, _, _, _⟩ :=
    runMissingLoop_spec env (missingUids s l) (buildConfigMap l)
      ⟨s.pipeline_handles_by_index_uid.filter
          (fun p => decide (p.1 ∈ desiredUids l)), s.next_handle⟩
      ((nodup_akeys_buildConfigMap l).filter _)
      (fun v hv => (List.mem_filter.mp hv).1)
      (fun v _ cfg hcfg uid huid => consistent_spawn_uid hcons hcfg uid huid)
  rw [hrun] at hrec'
  simp only [Option.some.injEq, Prod.mk.injEq] at hrec'
  obtain ⟨hs₁, hevs⟩ := hrec'
  subst hs₁
  subst hevs
  have hlook₁ : ∀ v, v ∉ missingUids s l →
      alookup s₁.pipeline_handles_by_index_uid v =
        (if v ∈ desiredUids l then alookup s.pipeline_handles_by_index_uid v
         else none) := by
    intro v hv
    rw [hframe v hv]
    show alookup (s.pipeline_handles_by_index_uid.filter
      (fun p => decide (p.1 ∈ desiredUids l))) v = _
    rw [alookup_filter (fun k => decide (k ∈ desiredUids l))]
    by_cases hd : v ∈ desiredUids l
    · rw [if_pos (decide_eq_true hd), if_pos hd]
    · rw [if_neg (fun hb => hd (of_decide_eq_true hb)), if_neg hd]
  have hkeychar : ∀ v, v ∈ akeys s₁.pipeline_handles_by_index_uid ↔
      v ∈ desiredUids l := by
    intro v
    by_cases hv : v ∈ missingUids s l
    · have hdes := (mem_missingUids_iff.mp hv).1
      have hdes' : v ∈ desiredUids l := (mem_akeys_buildConfigMap l v).mpr hdes
      obtain ⟨cfg, hcfg⟩ := alookup_isSome_of_mem hdes'
      have hres : spawnResultUid env cfg = some v := allok_spawn_uid hcons hok hcfg
      obtain ⟨hdl, hh⟩ := (hmiss v hv cfg hcfg).2 hres
      exact ⟨fun _ => hdes', fun _ => mem_akeys_of_alookup hh⟩
    · constructor
      · intro hk
        obtain ⟨h, hh⟩ := alookup_isSome_of_mem hk
        rw [hlook₁ v hv] at hh
        by_cases hd : v ∈ desiredUids l
        · exact hd
        · rw [if_neg hd] at hh
          cases hh
      · intro hd
        have hvk : v ∈ akeys s.pipeline_handles_by_index_uid := by
          by_contra hnk
          exact hv (mem_missingUids_iff.mpr ⟨(mem_akeys_buildConfigMap l v).mp hd, hnk⟩)
        obtain ⟨h, hh⟩ := alookup_isSome_of_mem hvk
        have hsome : alookup s₁.pipeline_handles_by_index_uid v = some h := by
          rw [hlook₁ v hv, if_pos hd]
          exact hh
        exact mem_akeys_of_alookup hsome
  have hstale₂ : staleUids s₁ l = [] := by
    unfold staleUids
    rw [List.filter_eq_nil_iff]
    intro v hvk hb
    exact (of_decide_eq_true hb) ((hkeychar v).mp hvk)
  have hmiss₂ : missingUids s₁ l = [] := by
    unfold missingUids
    rw [List.filter_eq_nil_iff]
    intro v hvd hb
    exact (of_decide_eq_true hb) ((hkeychar v).mpr hvd)
  obtain ⟨s₂, missingEvs₂, heq₂, hrun₂, _, _, _⟩ :=
    update_pipeline_handles_spec env s₁ l hl hnodup₁
  rw [hmiss₂] at hrun₂
  have hnilrun : runMissingLoop env
      ⟨s₁.pipeline_handles_by_index_uid.filter
          (fun p => decide (p.1 ∈ desiredUids l)), s₁.next_handle⟩
      (buildConfigMap l) [] =
      some (⟨s₁.pipeline_handles_by_index_uid.filter
          (fun p => decide (p.1 ∈ desiredUids l)), s₁.next_handle⟩, []) := rfl
  rw [hnilrun] at hrun₂
  simp only [Option.some.injEq, Prod.mk.injEq] at hrun₂
  obtain ⟨hs₂eq, hevs₂⟩ := hrun₂
  have hfid : s₁.pipeline_handles_by_index_uid.filter
      (fun p => decide (p.1 ∈ desiredUids l)) = s₁.pipeline_handles_by_index_uid := by
    rw [List.filter_eq_self]
    intro p hp
    exact decide_eq_true ((hkeychar p.1).mp (List.mem_map_of_mem Prod.fst hp))
  have hs₂s₁ : s₂ = s₁ := by
    rw [← hs₂eq, hfid]
  rw [hstale₂, hs₂s₁, ← hevs₂] at heq₂
  refine ⟨s₁, (staleUids s l).flatMap staleEvents ++ missingEvs, heq, ?_⟩
  simpa using heq₂

theorem allSpawnsOk_envA : AllSpawnsOk envA [imA] := by
  intro im him
  simp only [List.mem_singleton] at him
  subst him
  rfl

/-- Witness for C4 at a concrete environment with one healthy index. -/
theorem reconciliation_idempotent_witness :
    (akeys s0.pipeline_handles_by_index_uid).Nodup ∧
    ∃ s₁ evs₁, update_pipeline_handles envA s0 = some (s₁, evs₁, true) ∧
      update_pipeline_handles envA s₁ = some (s₁, [], true) :=
  ⟨by decide, reconciliation_idempotent envA s0 [imA] rfl (by decide)
    consistentFetch_envA allSpawnsOk_envA⟩

theorem countP_mem_comm {K D : List IndexUid} (hK : K.Nodup) (hD : D.Nodup) :
    K.countP (fun v => decide (v ∈ D)) = D.countP (fun v => decide (v ∈ K)) := by
  rw [List.countP_eq_length_filter, List.countP_eq_length_filter]
  apply List.Perm.length_eq
  apply List.perm_of_nodup_nodup_toFinset_eq (hK.filter _) (hD.filter _)
  ext x
  simp only [List.mem_toFinset, List.mem_filter, decide_eq_true_eq]
  exact and_comm

/-- C1: when the listing succeeds with distinct uids, the store is consistent
and no spawn fails, the pass ends with `num_running_pipelines` equal to the
number of indexes the listing returned; and in every state the observable
`num_running_pipelines` is exactly the number of entries of the handle map. -/
theorem pass_count_matches_listing (env : Env) (s : DeleteTaskService)
    (l : List IndexMetadata)
    (hl : env.listing = Except.ok l)
    (hkeys : (akeys s.pipeline_handles_by_index_uid).Nodup)
    (hnodupl : (l.map IndexMetadata.index_uid).Nodup)
    (hcons : ConsistentFetch env l)
    (hok : AllSpawnsOk env l) :
    ∃ s₁ evs, update_pipeline_handles env s = some (s₁, evs, true) ∧
      (observable_state s₁).num_running_pipelines = l.length ∧
      (∀ st : DeleteTaskService, (observable_state st).num_running_pipelines =
        st.pipeline_handles_by_index_uid.length) := by
  obtain ⟨s₁, missingEvs, heq, hrun, _, _, _⟩ :=
    update_pipeline_handles_spec env s l hl hkeys
  have hmisskeys : ∀ u ∈ missingUids s l, u ∈ akeys (buildConfigMap l) :=
    fun u hu => (List.mem_filter.mp hu).1
  have hok' : ∀ u ∈ missingUids s l, ∀ cfg, alookup (buildConfigMap l) u = some cfg →
      spawnResultUid env cfg = some u :=
    fun u _ cfg hcfg => allok_spawn_uid hcons hok hcfg
  have hdisj : ∀ u ∈ missingUids s l,
      u ∉ akeys (s.pipeline_handles_by_index_uid.filter
        (fun p => decide (p.1 ∈ desiredUids l))) := by
    intro u hu hmem
    rw [akeys_filter (fun k => decide (k ∈ desiredUids l))] at hmem
    exact (mem_missingUids_iff.mp hu).2 (List.mem_filter.mp hmem).1
  obtain ⟨s₁', evs', hrec', hlen⟩ :=
    runMissingLoop_length env (missingUids s l) (buildConfigMap l)
      ⟨s.pipeline_handles_by_index_uid.filter
          (fun p => decide (p.1 ∈ desiredUids l)), s.next_handle⟩
      ((nodup_akeys_buildConfigMap l).filter _) hmisskeys hok' hdisj
  rw [hrun] at hrec'
  simp only [Option.some.injEq, Prod.mk.injEq] at hrec'
  obtain ⟨hs₁, _⟩ := hrec'
  subst hs₁
  have h1 : (s.pipeline_handles_by_index_uid.filter
      (fun p => decide (p.1 ∈ desiredUids l))).length =
      (akeys s.pipeline_handles_by_index_uid).countP
        (fun k => decide (k ∈ desiredUids l)) := by
    rw [← List.countP_eq_length_filter]
    unfold akeys
    rw [List.countP_map]
    rfl
  have h2 : (akeys s.pipeline_handles_by_index_uid).countP
      (fun k => decide (k ∈ desiredUids l)) =
      (desiredUids l).countP
        (fun k => decide (k ∈ akeys s.pipeline_handles_by_index_uid)) :=
    countP_mem_comm hkeys (nodup_akeys_buildConfigMap l)
  have h3 : (missingUids s l).length =
      (desiredUids l).countP
        (fun k => decide (k ∉ akeys s.pipeline_handles_by_index_uid)) := by
    unfold missingUids
    rw [List.countP_eq_length_filter]
  have h4 : (desiredUids l).countP
        (fun k => decide (k ∈ akeys s.pipeline_handles_by_index_uid)) +
      (desiredUids l).countP
        (fun k => decide (k ∉ akeys s.pipeline_handles_by_index_uid)) =
      (desiredUids l).length := by
    rw [List.length_eq_countP_add_countP
      (fun k => decide (k ∈ akeys s.pipeline_handles_by_index_uid)) (desiredUids l)]
    congr 1
    rw [List.countP_eq_length_filter, List.countP_eq_length_filter]
    congr 1
    apply List.filter_congr
    intro k _
    by_cases hk : k ∈ akeys s.pipeline_handles_by_index_uid <;> simp [hk]
  have h5 : (desiredUids l).length = l.length := by
    unfold desiredUids akeys
    rw [List.length_map, length_buildConfigMap hnodupl]
  refine ⟨s₁, (staleUids s l).flatMap staleEvents ++ missingEvs, heq, ?_, fun st => rfl⟩
  show s₁.pipeline_handles_by_index_uid.length = l.length
  rw [hlen]
  simp only at h1 ⊢
  rw [h1, h2, h3, h4, h5]

/-- Witness for C1 at a concrete environment with one healthy index. -/
theorem pass_count_matches_listing_witness :
    (akeys s0.pipeline_handles_by_index_uid).Nodup ∧
    ∃ s₁ evs, update_pipeline_handles envA s0 = some (s₁, evs, true) ∧
      (observable_state s₁).num_running_pipelines = [imA].length ∧
      (∀ st : DeleteTaskService, (observable_state st).num_running_pipelines =
        st.pipeline_handles_by_index_uid.length) :=
  ⟨by decide, pass_count_matches_listing envA s0 [imA] rfl (by decide) (by decide)
    consistentFetch_envA allSpawnsOk_envA⟩
